import Mathlib

/-!
Verification of the orchestration core of the AI-Multiagent backend
(`backend/app`): the Run/Task state machine, the Project/Run locking
discipline of the API layer (`api/runs.py`), the Planner's bounded JSON
self-correction loop (`agents/planner.py`), the Executor's rolling-context
loop (`agents/executor.py`), the Reporter (`agents/reporter.py`) and the
input sanitizer (`core/prompt_guard.py`).

The Python code is shallowly embedded: the database session becomes an
explicit `DB` record threaded through the operations; the external
completion service becomes an oracle indexed by call number (for the
Planner: the parse outcome of each response; for the Executor: the
per-task outcome, including the two failure points the code can hit —
the completion call raising and the output-persisting commit raising);
exceptions become `Except` values.  Python string primitives used by the
code (`str.strip`, slicing, `str.join`, `re.sub` on the fixed literal
denylist, `int()` / `str()` coercion of JSON values, `x in y`, `x[k]`,
`x or y`) are modelled character-exactly for the value shapes the code
can receive, except that JSON floats and underscore digit grouping in
`int()` strings are not modelled (no claim depends on them).
-/

/-! ### Python string primitives -/

/-- Python `str.strip()` whitespace set (ASCII part). -/
def pyWs (c : Char) : Bool :=
  c = ' ' || c = '\t' || c = '\n' || c = '\r' || c = '\x0b' || c = '\x0c'

def pyStripChars (l : List Char) : List Char :=
  ((l.dropWhile pyWs).reverse.dropWhile pyWs).reverse

/-- Python `s.strip()`. -/
def pyStrip (s : String) : String := ⟨pyStripChars s.data⟩

/-- Python `s[:n]` (slicing counts code points, as `List Char` does). -/
def pyTake (s : String) (n : Nat) : String := ⟨s.data.take n⟩

/-- Python `sep.join(items)`. -/
def pyJoin (sep : String) : List String → String
  | [] => ""
  | [x] => x
  | x :: xs => x ++ sep ++ pyJoin sep xs

/-- Concatenation of a list of strings (used to state rolling-context facts). -/
def strJoin : List String → String
  | [] => ""
  | s :: rest => s ++ strJoin rest

/-! ### `core/prompt_guard.py` — `sanitize` -/

def lowerEq (a b : Char) : Bool := a.toLower = b.toLower

/-- Does `s` start with `pat`, case-insensitively? -/
def matchCI : List Char → List Char → Bool
  | [], _ => true
  | _ :: _, [] => false
  | p :: ps, c :: cs => lowerEq p c && matchCI ps cs

/-- `re.sub(pat, repl, text, flags=re.I)` for a literal pattern `pat`:
leftmost non-overlapping case-insensitive occurrences are replaced. -/
def substCI (pat repl : List Char) : List Char → List Char
  | [] => []
  | c :: cs =>
    if matchCI pat (c :: cs) then repl ++ substCI pat repl (List.drop (pat.length - 1) cs)
    else c :: substCI pat repl cs
termination_by l => l.length
decreasing_by
  · simp only [List.length_cons, List.length_drop]
    omega
  · simp only [List.length_cons]
    omega

/-- Length matched by the one non-literal denylist pattern `api[_-]?key`
at the head of `l` (greedy `?`, as in `re`), if any. -/
def apiKeyLen (l : List Char) : Option Nat :=
  if matchCI ['a', 'p', 'i'] l then
    match List.drop 3 l with
    | c :: rest2 =>
      if (c = '_' || c = '-') && matchCI ['k', 'e', 'y'] rest2 then some 7
      else if matchCI ['k', 'e', 'y'] (c :: rest2) then some 6
      else none
    | [] => none
  else none

def substApiKey (repl : List Char) : List Char → List Char
  | [] => []
  | c :: cs =>
    match apiKeyLen (c :: cs) with
    | some n => repl ++ substApiKey repl (List.drop (n - 1) cs)
    | none => c :: substApiKey repl cs
termination_by l => l.length
decreasing_by
  · simp only [List.length_cons, List.length_drop]
    omega
  · simp only [List.length_cons]
    omega

def filteredTok : List Char := "[filtered]".data

/-- The `BLOCK_PATTERNS` substitutions of `prompt_guard.py`, applied in
source order. -/
def sanitizeAll (l : List Char) : List Char :=
  let l := substCI "ignore previous".data filteredTok l
  let l := substCI "system:".data filteredTok l
  let l := substCI "developer:".data filteredTok l
  let l := substCI "you are chatgpt".data filteredTok l
  let l := substCI "jailbreak".data filteredTok l
  let l := substCI "override".data filteredTok l
  let l := substCI "sudo".data filteredTok l
  let l := substCI "password".data filteredTok l
  let l := substApiKey filteredTok l
  substCI "token".data filteredTok l

/-- `prompt_guard.sanitize`: empty text maps to `""`, otherwise truncate to
3000 characters, apply the denylist substitutions, and strip. -/
def sanitize (text : String) : String :=
  if text = "" then ""
  else pyStrip ⟨sanitizeAll (pyTake text 3000).data⟩

/-! ### JSON values and Python coercions used by the Planner -/

/-- Values `json.loads` can produce, as the Planner consumes them
(floats omitted; no claim involves them). -/
inductive JVal where
  | jnull : JVal
  | jbool : Bool → JVal
  | jint : Int → JVal
  | jstr : String → JVal
  | jlist : List JVal → JVal
  | jdict : List (String × JVal) → JVal
deriving BEq

/-- Exceptions the embedded code can raise. `http` is FastAPI's
`HTTPException`; the bare constructors are the Python builtin exception
classes raised by the dynamic operations; `dbErr` stands for a database
error raised by a commit/bulk-update. -/
inductive PyErr where
  | http : Nat → String → PyErr
  | typeErr : PyErr
  | valueErr : PyErr
  | keyErr : PyErr
  | attrErr : PyErr
  | dbErr : PyErr
deriving DecidableEq, Repr

def jLookup (key : String) (kvs : List (String × JVal)) : Option JVal :=
  (kvs.find? (fun kv => kv.1 == key)).map (fun kv => kv.2)

mutual

/-- Python `repr` of a JSON value (string quoting is modelled without
escape handling; no claim exercises it). -/
def pyRepr : JVal → String
  | .jnull => "None"
  | .jbool true => "True"
  | .jbool false => "False"
  | .jint n => toString n
  | .jstr s => "'" ++ s ++ "'"
  | .jlist xs => "[" ++ pyReprItems xs ++ "]"
  | .jdict kvs => "\x7b" ++ pyReprEntries kvs ++ "\x7d"

def pyReprItems : List JVal → String
  | [] => ""
  | [x] => pyRepr x
  | x :: xs => pyRepr x ++ ", " ++ pyReprItems xs

def pyReprEntries : List (String × JVal) → String
  | [] => ""
  | [kv] => "'" ++ kv.1 ++ "': " ++ pyRepr kv.2
  | kv :: kvs => "'" ++ kv.1 ++ "': " ++ pyRepr kv.2 ++ ", " ++ pyReprEntries kvs

end

/-- Python `str(v)` for a JSON value: identity on strings, `repr`
otherwise (as CPython's `str` behaves on these types). -/
def pyToStr : JVal → String
  | .jstr s => s
  | v => pyRepr v

def digitsToNat? : List Char → Option Nat
  | [] => none
  | ds => ds.foldl (fun acc c => match acc with
      | none => none
      | some n => if c.isDigit then some (n * 10 + (c.toNat - '0'.toNat)) else none)
      (some 0)

/-- Python `int(s)` on a string: strips whitespace, optional sign, digits
(digit grouping with `_` is not modelled). -/
def pyStrToInt (s : String) : Except PyErr Int :=
  match pyStripChars s.data with
  | '-' :: ds => match digitsToNat? ds with
    | some n => .ok (-(n : Int))
    | none => .error .valueErr
  | '+' :: ds => match digitsToNat? ds with
    | some n => .ok (n : Int)
    | none => .error .valueErr
  | ds => match digitsToNat? ds with
    | some n => .ok (n : Int)
    | none => .error .valueErr

/-- Python `int(v)` on a JSON value (`int(True) = 1`; non-numeric types
raise `TypeError`, unparseable strings raise `ValueError`). -/
def pyToInt : JVal → Except PyErr Int
  | .jint n => .ok n
  | .jbool b => .ok (if b then 1 else 0)
  | .jstr s => pyStrToInt s
  | _ => .error .typeErr

def hasPrefixChars : List Char → List Char → Bool
  | [], _ => true
  | _ :: _, [] => false
  | p :: ps, c :: cs => p = c && hasPrefixChars ps cs

def hasInfixChars (needle : List Char) : List Char → Bool
  | [] => needle.isEmpty
  | c :: cs => hasPrefixChars needle (c :: cs) || hasInfixChars needle cs

/-- Python `key in v`: key membership for dicts, substring test for
strings, element equality for lists; `TypeError` for non-iterables. -/
def pyContains (needle : String) : JVal → Except PyErr Bool
  | .jdict kvs => .ok (jLookup needle kvs).isSome
  | .jstr s => .ok (hasInfixChars needle.data s.data)
  | .jlist xs => .ok (xs.contains (JVal.jstr needle))
  | _ => .error .typeErr

/-- Python `v[key]` with a string key: dict lookup; `TypeError` on
strings and lists (string indices must be integers), `KeyError` on a
missing dict key. -/
def pyGetItem (key : String) : JVal → Except PyErr JVal
  | .jdict kvs => match jLookup key kvs with
    | some v => .ok v
    | none => .error .keyErr
  | _ => .error .typeErr

/-! ### Data model (`models/project.py`), restricted to the fields the
orchestration core reads or writes.  Ownership checks (`owner_id`) are an
external collaborator concern per the spec and are not reproduced: the
model is single-user. -/

structure ProjectRec where
  id : Nat
  title : String
  description : Option String
  isLocked : Bool
deriving DecidableEq, Repr

structure RunRec where
  id : Nat
  projectId : Nat
  status : String
  finalSummary : Option String
  isArchived : Bool
  isLocked : Bool
deriving DecidableEq, Repr

structure TaskRec where
  id : Nat
  runId : Nat
  agentType : String
  status : String
  input : String
  output : Option String
  orderIndex : Int
deriving DecidableEq, Repr

structure LogRec where
  runId : Nat
  agentType : Option String
  level : String
  message : String
deriving DecidableEq, Repr

/-- The persistent store.  `nextId` models the autoincrement primary-key
counter (shared here by runs and tasks; only freshness matters). -/
structure DB where
  projects : List ProjectRec
  runs : List RunRec
  tasks : List TaskRec
  logs : List LogRec
  nextId : Nat
deriving DecidableEq, Repr

def dbInit (ps : List ProjectRec) : DB := ⟨ps, [], [], [], 1⟩

/-! ### `agents/planner.py` — `PlannerAgent.plan`

The completion service is an oracle `resp : Nat → Option JVal` giving,
for the k-th `generate_completion` call (0-based), the `json.loads`
outcome of its response: `none` when the response is malformed JSON,
`some v` when it parses to `v`.  The planner's control flow depends on
the response text only through this outcome. -/

/-- The `for _ in range(MAX_REFINES)` self-correction loop: `cur` is the
current response, `calls` the number of completion calls made so far,
`fuel` the remaining loop iterations.  Each iteration first tries to
parse `cur` (`break` on success) and otherwise issues one correction
call. -/
def planLoopGo (resp : Nat → Option JVal) (cur : Option JVal) (calls fuel : Nat) :
    Option JVal × Nat :=
  match fuel with
  | 0 => (cur, calls)
  | fuel' + 1 =>
    if cur.isSome then (cur, calls)
    else planLoopGo resp (resp calls) (calls + 1) fuel'

/-- The initial completion call followed by the correction loop with
`MAX_REFINES = 3`; returns the final parse outcome and the number of
completion calls made. -/
def planLoop (resp : Nat → Option JVal) : Option JVal × Nat :=
  planLoopGo resp (resp 0) 1 3

/-- One iteration of the task-creation loop body: `continue` when a
required key is missing, otherwise produce the `(order_index, input)`
pair with Python's coercions, propagating any exception. -/
def planElem (t : JVal) : Except PyErr (Option (Int × String)) :=
  match pyContains "order_index" t with
  | .error e => .error e
  | .ok c1 =>
    if !c1 then .ok none
    else
      match pyContains "input" t with
      | .error e => .error e
      | .ok c2 =>
        if !c2 then .ok none
        else
          match pyGetItem "input" t with
          | .error e => .error e
          | .ok iv =>
            match pyGetItem "order_index" t with
            | .error e => .error e
            | .ok ov =>
              match pyToInt ov with
              | .error e => .error e
              | .ok n => .ok (some (n, pyTake (pyToStr iv) 4000))

def planElems : List JVal → Except PyErr (List (Int × String))
  | [] => .ok []
  | t :: rest =>
    match planElem t with
    | .error e => .error e
    | .ok h =>
      match planElems rest with
      | .error e => .error e
      | .ok tl =>
        match h with
        | none => .ok tl
        | some p => .ok (p :: tl)

/-- `PlannerAgent.plan` up to (but excluding) the database writes:
parse with the correction loop, `data.get("tasks")` (an `AttributeError`
if the parsed value is not a dict), the list/non-empty check, and the
element loop.  Returns the pairs to persist and the call count. -/
def plannerCore (resp : Nat → Option JVal) : Except PyErr (List (Int × String)) × Nat :=
  let lc := planLoop resp
  match lc.1 with
  | none => (.error (.http 400 "Planner failed to produce valid JSON"), lc.2)
  | some data =>
    match data with
    | .jdict kvs =>
      match jLookup "tasks" kvs with
      | some (.jlist l) =>
        if l.isEmpty then (.error (.http 400 "Planner returned invalid tasks"), lc.2)
        else (planElems l, lc.2)
      | _ => (.error (.http 400 "Planner returned invalid tasks"), lc.2)
    | _ => (.error .attrErr, lc.2)

def mkPlannedTasks (rid startId : Nat) : List (Int × String) → List TaskRec
  | [] => []
  | p :: rest => ⟨startId, rid, "executor", "pending", p.2, none, p.1⟩ :: mkPlannedTasks rid (startId + 1) rest

def setRunStatus (rid : Nat) (st : String) (runs : List RunRec) : List RunRec :=
  runs.map (fun r => if r.id == rid then { r with status := st } else r)

deriving instance DecidableEq for Except

structure PlanOut where
  result : Except PyErr (List TaskRec)
  db : DB
  calls : Nat
deriving DecidableEq, Repr

/-- `PlannerAgent.plan(run, ...)`: on success the created tasks are
committed together with the run's advance to `planned`; on any raised
exception nothing is committed and the state is unchanged. -/
def plannerPlan (resp : Nat → Option JVal) (run : RunRec) (s : DB) : PlanOut :=
  let core := plannerCore resp
  match core.1 with
  | .error e => ⟨.error e, s, core.2⟩
  | .ok pairs =>
    let ts := mkPlannedTasks run.id s.nextId pairs
    ⟨.ok ts,
     { s with tasks := s.tasks ++ ts,
              runs := setRunStatus run.id "planned" s.runs,
              nextId := s.nextId + pairs.length },
     core.2⟩

/-! ### `agents/executor.py` — `ExecutorAgent.run`

The per-task interaction with the completion service and the store is an
oracle `orc : Nat → TaskOutcome` for the k-th processed task:
`ok text tokens` — `generate_completion` returns `text` with
`usage["total_tokens"] = tokens` and the commits succeed;
`llmFail msg` — `generate_completion` raises with message `msg`;
`persistFail text msg` — the completion succeeds but the commit that
saves the output raises with message `msg` (the uncommitted
output/status assignment is rolled back). -/

inductive TaskOutcome where
  | ok : String → Nat → TaskOutcome
  | llmFail : String → TaskOutcome
  | persistFail : String → String → TaskOutcome

/-- The rolling-context line appended after a successful task:
`f"\n---\nTask {task.order_index} Output:\n{result}"`. -/
def ctxSep (idx : Int) (out : String) : String :=
  "\n---\nTask " ++ toString idx ++ " Output:\n" ++ out

/-- The executor's per-task prompt f-string. -/
def execPrompt (title ctx input : String) : String :=
  "\nYou are an expert AI agent working on a project.\n\nPROJECT:\n" ++ title ++
  "\n\nPREVIOUS WORK:\n" ++ ctx ++ "\n\nCURRENT TASK:\n" ++ sanitize input ++
  "\n\n\nContinue the work carefully and clearly.\n"

structure ExecStep where
  task : TaskRec
  prompt : String
deriving DecidableEq, Repr

structure ExecResult where
  tasks : List TaskRec
  logs : List LogRec
  steps : List ExecStep
  finalCtx : String
deriving DecidableEq, Repr

/-- The executor loop.  Each task is first marked `running` (committed
in-flight state), its prompt is built from the rolling context, and the
oracle decides the outcome: on success the task becomes `done` with its
output saved, a `cost` log is added and the context grows; on either
failure the transaction is rolled back, the task is reset to `pending`
and an `error` log carries the exception message; the loop then
continues with the remaining tasks. -/
def executorGo (orc : Nat → TaskOutcome) (title : String) (runId : Nat) :
    Nat → String → List TaskRec → ExecResult
  | _, ctx, [] => ⟨[], [], [], ctx⟩
  | k, ctx, t :: rest =>
    let running := { t with status := "running" }
    let prompt := execPrompt title ctx running.input
    match orc k with
    | .ok text tokens =>
      let t' := { running with status := "done", output := some text }
      let lg : LogRec := ⟨runId, some "llm", "cost", "Tokens used: " ++ toString tokens⟩
      let r := executorGo orc title runId (k + 1) (ctx ++ ctxSep t.orderIndex text) rest
      ⟨t' :: r.tasks, lg :: r.logs, ⟨t, prompt⟩ :: r.steps, r.finalCtx⟩
    | .llmFail msg =>
      let t' := { running with status := "pending" }
      let lg : LogRec := ⟨runId, some t.agentType, "error", msg⟩
      let r := executorGo orc title runId (k + 1) ctx rest
      ⟨t' :: r.tasks, lg :: r.logs, ⟨t, prompt⟩ :: r.steps, r.finalCtx⟩
    | .persistFail _ msg =>
      let t' := { running with status := "pending" }
      let lg : LogRec := ⟨runId, some t.agentType, "error", msg⟩
      let r := executorGo orc title runId (k + 1) ctx rest
      ⟨t' :: r.tasks, lg :: r.logs, ⟨t, prompt⟩ :: r.steps, r.finalCtx⟩

/-- `ExecutorAgent.run(project_title, tasks, run_id)` with empty initial
rolling context.  `tasks` holds the updated task rows positionally,
`logs` the appended log rows, `steps` the processing trace (task as
received, prompt sent). -/
def executorRun (orc : Nat → TaskOutcome) (title : String) (runId : Nat)
    (ts : List TaskRec) : ExecResult :=
  executorGo orc title runId 0 "" ts

/-! ### `agents/reporter.py` — `ReporterAgent.run` -/

/-- A task snapshot dict as built by `summarize_run` (`.get` semantics
need optional fields). -/
structure RepTask where
  orderIndex : Option Int
  agentType : Option String
  input : Option String
  output : Option String
deriving DecidableEq, Repr

/-- Python `x or dflt` on an optional string (`None` and `""` are falsy). -/
def pyOrStr (o : Option String) (dflt : String) : String :=
  match o with
  | none => dflt
  | some s => if s = "" then dflt else s

def repIdx (o : Option Int) : String :=
  match o with
  | some n => toString n
  | none => "?"

def reporterBlock (t : RepTask) : List String :=
  let inputText := pyStrip (pyOrStr t.input "")
  let outputText := pyStrip (pyOrStr t.output "")
  ["", "Step " ++ repIdx t.orderIndex ++ " (" ++ pyOrStr t.agentType "executor" ++ "):"] ++
  (if inputText = "" then [] else ["- Instruction: " ++ inputText]) ++
  [if outputText = "" then "- Result: (no output recorded)"
   else "- Result: " ++ outputText]

def reporterClosing : String :=
  "Overall, the project has been broken down into clear steps and each step has been processed. This summary can be used as a high-level report of what the orchestrator completed."

/-- `ReporterAgent.run(project_title, tasks)`: pure reduction of the task
snapshots to the newline-joined narrative. -/
def reporterRun (title : String) (ts : List RepTask) : String :=
  pyJoin "\n"
    (["Summary for project: " ++ title, "", "This run executed the following steps:"] ++
     List.flatten (ts.map reporterBlock) ++
     ["", reporterClosing])

/-! ### `api/runs.py` — the three orchestration endpoints

Each endpoint is a function `DB → result × DB`.  The `with_for_update`
row locks serialize the critical sections, so the single-threaded
sequential model is faithful to the concurrency discipline; the
`is_locked` flags are modelled exactly.  The one collaborator failure
the code leaves outside its `try/finally` is the archive bulk-update /
commit of `create_and_plan_run`: it is given an explicit `archiveOk`
switch (a database error there is a real exception source, cf. the
spec's PersistencePort). -/

def setProjectLock (pid : Nat) (b : Bool) (ps : List ProjectRec) : List ProjectRec :=
  ps.map (fun p => if p.id == pid then { p with isLocked := b } else p)

/-- The bulk update `Run.project_id == pid ∧ Run.is_archived == False →
is_archived := True`. -/
def archiveRuns (pid : Nat) (runs : List RunRec) : List RunRec :=
  runs.map (fun r => if r.projectId == pid && !r.isArchived then { r with isArchived := true } else r)

structure CpOut where
  result : Except PyErr Nat
  db : DB
deriving Repr

/-- The `try/finally` part of `create_and_plan_run`, entered after the
lock was set and the archive update committed: create the new `created`
run, invoke the planner, and always clear `Project.is_locked` — the new
run's id is returned on success, the planner's exception is re-raised
otherwise, with the same final state either way. -/
def createAndPlanMain (pid : Nat) (resp : Nat → Option JVal) (s1 : DB) : CpOut :=
  let s2 := { s1 with runs := archiveRuns pid s1.runs }
  let run : RunRec := ⟨s2.nextId, pid, "created", none, false, false⟩
  let s3 := { s2 with runs := s2.runs ++ [run], nextId := s2.nextId + 1 }
  let po := plannerPlan resp run s3
  let s4 := { po.db with projects := setProjectLock pid false po.db.projects }
  ⟨match po.result with
   | .ok _ => .ok run.id
   | .error e => .error e,
   s4⟩

/-- `create_and_plan_run(project_id)`: lock check and set, archive of
all prior non-archived runs of the project (fallible, and outside the
`try`, hence the `archiveOk` switch: on an archive failure the error
propagates with `Project.is_locked` still set), then the
planner-plus-`finally` section. -/
def createAndPlan (pid : Nat) (archiveOk : Bool) (resp : Nat → Option JVal) (s : DB) : CpOut :=
  match s.projects.find? (fun p => p.id == pid) with
  | none => ⟨.error (.http 404 "Project not found"), s⟩
  | some p =>
    if p.isLocked then ⟨.error (.http 409 "Project already has a running job"), s⟩
    else
      let s1 := { s with projects := setProjectLock pid true s.projects }
      if !archiveOk then ⟨.error .dbErr, s1⟩
      else createAndPlanMain pid resp s1

/-- Stable insertion sort by `order_index`, modelling the SQL
`ORDER BY order_index`. -/
def insertTask (t : TaskRec) : List TaskRec → List TaskRec
  | [] => [t]
  | u :: us => if t.orderIndex ≤ u.orderIndex then t :: u :: us else u :: insertTask t us

def sortByOrderIndex (l : List TaskRec) : List TaskRec := l.foldr insertTask []

def findRun (s : DB) (i : Nat) : Option RunRec := s.runs.find? (fun r => r.id == i)

structure ExecRunOut where
  result : Except PyErr (Nat × String)
  db : DB
  steps : List ExecStep
deriving Repr

/-- The pending-task query of `execute_run`: tasks of the run with
`status == "pending"`, ordered by `order_index`. -/
def execPending (rid : Nat) (s : DB) : List TaskRec :=
  sortByOrderIndex (s.tasks.filter (fun t => t.runId == rid && t.status == "pending"))

/-- `run.project.title` as the executor receives it. -/
def execTitle (s : DB) (run : RunRec) : String :=
  (((s.projects.find? (fun p => p.id == run.projectId)).map (fun p => p.title)).getD "")

/-- `execute_run(run_id)`: run lookup, `is_locked` conflict check, the
pending-task query ordered by `order_index`, the `running` →
executor → `completed` status writes, and the `finally` that clears
`Run.is_locked`.  Error paths leave the store unchanged (the transient
lock set/clear pair cancels); on return the executor's row updates and
logs are committed and the run is `completed`. -/
def executeRun (rid : Nat) (orc : Nat → TaskOutcome) (s : DB) : ExecRunOut :=
  match s.runs.find? (fun r => r.id == rid) with
  | none => ⟨.error (.http 404 "Run not found"), s, []⟩
  | some run =>
    if run.isLocked then ⟨.error (.http 409 "Run already executing"), s, []⟩
    else
      if (execPending rid s).isEmpty then ⟨.error (.http 400 "No pending tasks"), s, []⟩
      else
        let r := executorRun orc (execTitle s run) rid (execPending rid s)
        let tasks' := s.tasks.map (fun t => ((r.tasks.find? (fun u => u.id == t.id)).getD t))
        let runs' := s.runs.map (fun q => if q.id == rid then { q with status := "completed" } else q)
        ⟨.ok (rid, "completed"), { s with tasks := tasks', runs := runs', logs := s.logs ++ r.logs }, r.steps⟩

/-- `summarize_run(run_id)`: run lookup, all tasks of the run ordered by
`order_index` (fail when none), the Reporter, and the
`final_summary` / `summarized` write. -/
def summarizeRun (rid : Nat) (s : DB) : Except PyErr (Nat × String × String) × DB :=
  match s.runs.find? (fun r => r.id == rid) with
  | none => (.error (.http 404 "Run not found"), s)
  | some run =>
    let tasks := sortByOrderIndex (s.tasks.filter (fun t => t.runId == rid))
    if tasks.isEmpty then (.error (.http 400 "No tasks to summarize"), s)
    else
      let title := (((s.projects.find? (fun p => p.id == run.projectId)).map (fun p => p.title)).getD "")
      let snaps := tasks.map (fun t => RepTask.mk (some t.orderIndex) (some t.agentType) (some t.input) t.output)
      let summary := reporterRun title snaps
      (.ok (rid, "summarized", summary),
       { s with runs := s.runs.map (fun r =>
           if r.id == rid then { r with finalSummary := some summary, status := "summarized" } else r) })

/-! ### Operation traces over the store -/

/-- One invocation of a core endpoint, carrying its collaborator
oracles. -/
inductive Op where
  | createPlan : Nat → Bool → (Nat → Option JVal) → Op
  | execute : Nat → (Nat → TaskOutcome) → Op
  | summarize : Nat → Op

def applyOp (op : Op) (s : DB) : DB :=
  match op with
  | .createPlan pid ok resp => (createAndPlan pid ok resp s).db
  | .execute rid orc => (executeRun rid orc s).db
  | .summarize rid => (summarizeRun rid s).2

def applyOps (ops : List Op) (s : DB) : DB := ops.foldl (fun s op => applyOp op s) s

/-- Position of a status in the forward order
`created → planned → running → completed → summarized`. -/
def statusRank (st : String) : Nat :=
  if st = "created" then 0
  else if st = "planned" then 1
  else if st = "running" then 2
  else if st = "completed" then 3
  else if st = "summarized" then 4
  else 0

def countNonArchived (pid : Nat) (s : DB) : Nat :=
  (s.runs.filter (fun r => r.projectId == pid && !r.isArchived)).length

/-! ### Concrete fixtures used by counterexamples and witnesses -/

def projA : ProjectRec := ⟨1, "Proj", some "desc", false⟩

def s0c : DB := dbInit [projA]

/-- A completion oracle whose every response parses to a well-formed
one-task plan. -/
def goodResp : Nat → Option JVal := fun _ =>
  some (JVal.jdict [("tasks", JVal.jlist [JVal.jdict
    [("order_index", JVal.jint 1), ("input", JVal.jstr "step one")]])])

/-- A completion oracle whose every response is malformed JSON. -/
def badResp : Nat → Option JVal := fun _ => none

def failOrc : Nat → TaskOutcome := fun _ => TaskOutcome.llmFail "boom"

def okOrc : Nat → TaskOutcome := fun _ => TaskOutcome.ok "out" 5

def run0 : RunRec := ⟨1, 1, "created", none, false, false⟩

def sC3 : DB := { dbInit [projA] with runs := [run0], nextId := 2 }

/-! ### Executor characterization -/

def idxMap {α β : Type} (f : Nat → α → β) : Nat → List α → List β
  | _, [] => []
  | k, a :: l => f k a :: idxMap f (k + 1) l

/-- Net effect of one loop iteration on the task row. -/
def taskResult (o : TaskOutcome) (t : TaskRec) : TaskRec :=
  match o with
  | .ok text _ => { t with status := "done", output := some text }
  | .llmFail _ => { t with status := "pending" }
  | .persistFail _ _ => { t with status := "pending" }

/-- Log row appended by one loop iteration. -/
def logResult (runId : Nat) (o : TaskOutcome) (t : TaskRec) : LogRec :=
  match o with
  | .ok _ tok => ⟨runId, some "llm", "cost", "Tokens used: " ++ toString tok⟩
  | .llmFail m => ⟨runId, some t.agentType, "error", m⟩
  | .persistFail _ m => ⟨runId, some t.agentType, "error", m⟩

/-- Rolling-context text contributed by one task: its separator line and
output on success, nothing on failure. -/
def ctxGain (o : TaskOutcome) (t : TaskRec) : String :=
  match o with
  | .ok text _ => ctxSep t.orderIndex text
  | .llmFail _ => ""
  | .persistFail _ _ => ""

theorem idxMap_length {α β : Type} (f : Nat → α → β) :
    ∀ (l : List α) (k : Nat), (idxMap f k l).length = l.length := by
  intro l
  induction l with
  | nil => intro k; rfl
  | cons a l ih => intro k; simp [idxMap, ih]

theorem idxMap_get {α β : Type} (f : Nat → α → β) :
    ∀ (l : List α) (k i : Nat) (h : i < l.length) (h2 : i < (idxMap f k l).length),
      (idxMap f k l).get ⟨i, h2⟩ = f (k + i) (l.get ⟨i, h⟩) := by
  intro l
  induction l with
  | nil => intro k i h h2; exact absurd h (by simp)
  | cons a l ih =>
    intro k i h h2
    cases i with
    | zero => rfl
    | succ i =>
      have h' : i < l.length := by simpa using h
      have h2' : i < (idxMap f (k + 1) l).length := by simpa [idxMap] using h2
      have hrec := ih (k + 1) i h' h2'
      have hget : (idxMap f k (a :: l)).get ⟨i + 1, h2⟩ = (idxMap f (k + 1) l).get ⟨i, h2'⟩ := rfl
      rw [hget, hrec]
      have : k + 1 + i = k + (i + 1) := by omega
      rw [this]
      rfl

theorem forall_mem_idxMap {α β : Type} (f : Nat → α → β) (P : β → Prop)
    (hf : ∀ j a, P (f j a)) :
    ∀ (l : List α) (k : Nat), ∀ b ∈ idxMap f k l, P b := by
  intro l
  induction l with
  | nil => intro k b hb; simp [idxMap] at hb
  | cons a l ih =>
    intro k b hb
    rcases (by simpa [idxMap] using hb : b = f k a ∨ b ∈ idxMap f (k + 1) l) with h | h
    · exact h ▸ hf k a
    · exact ih (k + 1) b h

theorem idxMap_index_shift {α β : Type} (g : Nat → α → β) :
    ∀ (l : List α) (k : Nat), idxMap g (k + 1) l = idxMap (fun j u => g (j + 1) u) k l := by
  intro l
  induction l with
  | nil => intro k; rfl
  | cons a l ih => intro k; simp [idxMap, ih]

/-- Unfolding lemma: one iteration of the executor loop in terms of the
per-iteration effect functions. -/
theorem executorGo_cons (orc : Nat → TaskOutcome) (title : String) (runId k : Nat)
    (ctx : String) (t : TaskRec) (rest : List TaskRec) :
    executorGo orc title runId k ctx (t :: rest) =
      ⟨taskResult (orc k) t :: (executorGo orc title runId (k + 1) (ctx ++ ctxGain (orc k) t) rest).tasks,
       logResult runId (orc k) t :: (executorGo orc title runId (k + 1) (ctx ++ ctxGain (orc k) t) rest).logs,
       ⟨t, execPrompt title ctx t.input⟩ :: (executorGo orc title runId (k + 1) (ctx ++ ctxGain (orc k) t) rest).steps,
       (executorGo orc title runId (k + 1) (ctx ++ ctxGain (orc k) t) rest).finalCtx⟩ := by
  cases h : orc k <;>
    simp [executorGo, h, taskResult, logResult, ctxGain, String.append_empty]

theorem executorGo_tasks (orc : Nat → TaskOutcome) (title : String) (runId : Nat) :
    ∀ (rest : List TaskRec) (k : Nat) (ctx : String),
      (executorGo orc title runId k ctx rest).tasks
        = idxMap (fun j u => taskResult (orc j) u) k rest := by
  intro rest
  induction rest with
  | nil => intro k ctx; rfl
  | cons t rest ih =>
    intro k ctx
    rw [executorGo_cons]
    simp [idxMap, ih]

theorem executorGo_logs (orc : Nat → TaskOutcome) (title : String) (runId : Nat) :
    ∀ (rest : List TaskRec) (k : Nat) (ctx : String),
      (executorGo orc title runId k ctx rest).logs
        = idxMap (fun j u => logResult runId (orc j) u) k rest := by
  intro rest
  induction rest with
  | nil => intro k ctx; rfl
  | cons t rest ih =>
    intro k ctx
    rw [executorGo_cons]
    simp [idxMap, ih]

theorem executorGo_steps_tasks (orc : Nat → TaskOutcome) (title : String) (runId : Nat) :
    ∀ (rest : List TaskRec) (k : Nat) (ctx : String),
      (executorGo orc title runId k ctx rest).steps.map (fun st => st.task) = rest := by
  intro rest
  induction rest with
  | nil => intro k ctx; rfl
  | cons t rest ih =>
    intro k ctx
    rw [executorGo_cons]
    simp [ih]

theorem executorGo_steps_length (orc : Nat → TaskOutcome) (title : String) (runId : Nat)
    (rest : List TaskRec) (k : Nat) (ctx : String) :
    (executorGo orc title runId k ctx rest).steps.length = rest.length := by
  have h := executorGo_steps_tasks orc title runId rest k ctx
  calc (executorGo orc title runId k ctx rest).steps.length
      = ((executorGo orc title runId k ctx rest).steps.map (fun st => st.task)).length := by simp
    _ = rest.length := by rw [h]

theorem executorGo_prompt_get (orc : Nat → TaskOutcome) (title : String) (runId : Nat) :
    ∀ (rest : List TaskRec) (k : Nat) (ctx : String) (i : Nat)
      (hi : i < (executorGo orc title runId k ctx rest).steps.length),
      ((executorGo orc title runId k ctx rest).steps.get ⟨i, hi⟩).prompt
        = execPrompt title
            (ctx ++ strJoin (idxMap (fun j u => ctxGain (orc (k + j)) u) 0 (rest.take i)))
            (((executorGo orc title runId k ctx rest).steps.get ⟨i, hi⟩).task.input) := by
  intro rest
  induction rest with
  | nil =>
    intro k ctx i hi
    exact absurd hi (by simp [executorGo])
  | cons t rest ih =>
    intro k ctx i hi
    have hsteps : (executorGo orc title runId k ctx (t :: rest)).steps
        = ⟨t, execPrompt title ctx t.input⟩ :: (executorGo orc title runId (k + 1) (ctx ++ ctxGain (orc k) t) rest).steps := by
      rw [executorGo_cons]
    cases i with
    | zero =>
      have hget : (executorGo orc title runId k ctx (t :: rest)).steps.get ⟨0, hi⟩
          = ⟨t, execPrompt title ctx t.input⟩ := by
        simp [hsteps]
      rw [hget]
      simp [idxMap, strJoin, String.append_empty]
    | succ i =>
      have hi' : i < (executorGo orc title runId (k + 1) (ctx ++ ctxGain (orc k) t) rest).steps.length := by
        have := hi
        rw [hsteps] at this
        simpa using this
      have hget : (executorGo orc title runId k ctx (t :: rest)).steps.get ⟨i + 1, hi⟩
          = (executorGo orc title runId (k + 1) (ctx ++ ctxGain (orc k) t) rest).steps.get ⟨i, hi'⟩ := by
        simp [hsteps]
      have hrec := ih (k + 1) (ctx ++ ctxGain (orc k) t) i hi'
      rw [hget, hrec]
      have hshift : idxMap (fun j u => ctxGain (orc (k + j)) u) 1 (rest.take i)
          = idxMap (fun j u => ctxGain (orc (k + 1 + j)) u) 0 (rest.take i) := by
        have h0 := idxMap_index_shift (fun j u => ctxGain (orc (k + j)) u) (rest.take i) 0
        have h1 : (0 : Nat) + 1 = 1 := rfl
        rw [h1] at h0
        rw [h0]
        have : (fun (j : Nat) (u : TaskRec) => ctxGain (orc (k + (j + 1))) u)
            = fun (j : Nat) (u : TaskRec) => ctxGain (orc (k + 1 + j)) u := by
          funext j u
          have : k + (j + 1) = k + 1 + j := by omega
          rw [this]
        rw [this]
      have htake : (t :: rest).take (i + 1) = t :: rest.take i := rfl
      rw [htake]
      have hjoin : strJoin (idxMap (fun j u => ctxGain (orc (k + j)) u) 0 (t :: rest.take i))
          = ctxGain (orc k) t ++ strJoin (idxMap (fun j u => ctxGain (orc (k + 1 + j)) u) 0 (rest.take i)) := by
        calc strJoin (idxMap (fun j u => ctxGain (orc (k + j)) u) 0 (t :: rest.take i))
            = ctxGain (orc (k + 0)) t ++ strJoin (idxMap (fun j u => ctxGain (orc (k + j)) u) 1 (rest.take i)) := rfl
          _ = ctxGain (orc k) t ++ strJoin (idxMap (fun j u => ctxGain (orc (k + 1 + j)) u) 0 (rest.take i)) := by
              rw [hshift, Nat.add_zero]
      rw [hjoin, String.append_assoc]

/-! ### Claims about the Executor (C4, C6, C10) -/

/-- The rolling context passed to the i-th processed task, as the spec
describes it: the concatenation, in list order, of the context
contributions of the earlier tasks (separator line, order index and
output for the successful ones, nothing for failed ones). -/
def ctxUpTo (orc : Nat → TaskOutcome) (ts : List TaskRec) (i : Nat) : String :=
  strJoin (idxMap (fun j u => ctxGain (orc j) u) 0 (ts.take i))

/-- Conclusion of claim C4 for a given executor invocation. -/
def execOrderConcl (orc : Nat → TaskOutcome) (title : String) (runId : Nat)
    (ts : List TaskRec) : Prop :=
  (executorRun orc title runId ts).steps.map (fun st => st.task) = ts ∧
  ((executorRun orc title runId ts).steps.map (fun st => st.task.orderIndex)).Pairwise (fun a b => a < b) ∧
  ∀ (i : Nat) (hi : i < (executorRun orc title runId ts).steps.length),
    ((executorRun orc title runId ts).steps.get ⟨i, hi⟩).prompt
      = execPrompt title (ctxUpTo orc ts i)
          (((executorRun orc title runId ts).steps.get ⟨i, hi⟩).task.input)

/-- C4: over a task list sorted by `order_index`, the Executor processes
the tasks exactly in list order (hence in strictly ascending
`order_index` order), and the prompt of the i-th task embeds precisely
the rolling context accumulated from the successfully completed earlier
tasks, in ascending order, each piece introduced by the separator line
with its order index; failed tasks contribute nothing. -/
theorem executorC4_rollingContext (orc : Nat → TaskOutcome) (title : String) (runId : Nat)
    (ts : List TaskRec) (hsort : ts.Pairwise (fun a b => a.orderIndex < b.orderIndex)) :
    execOrderConcl orc title runId ts := by
  have hst : (executorRun orc title runId ts).steps.map (fun st => st.task) = ts :=
    executorGo_steps_tasks orc title runId ts 0 ""
  refine ⟨hst, ?_, ?_⟩
  · have h1 : (executorRun orc title runId ts).steps.map (fun st => st.task.orderIndex)
        = ((executorRun orc title runId ts).steps.map (fun st => st.task)).map (fun t => t.orderIndex) := by
      simp [List.map_map, Function.comp]
    rw [h1, hst]
    exact List.pairwise_map.mpr hsort
  · intro i hi
    have h := executorGo_prompt_get orc title runId ts 0 "" i hi
    have hfun : (fun (j : Nat) (u : TaskRec) => ctxGain (orc (0 + j)) u)
        = (fun (j : Nat) (u : TaskRec) => ctxGain (orc j) u) := by
      funext j u
      rw [Nat.zero_add]
    rw [hfun, String.empty_append] at h
    exact h

/-- Conclusion of claim C6 for a given failing task index. -/
def execFailureConcl (orc : Nat → TaskOutcome) (title : String) (runId : Nat)
    (ts : List TaskRec) (k : Nat) (msg : String) : Prop :=
  (executorRun orc title runId ts).tasks.length = ts.length ∧
  (executorRun orc title runId ts).logs.length = ts.length ∧
  (executorRun orc title runId ts).steps.length = ts.length ∧
  ∀ (h : k < ts.length) (hk : k < (executorRun orc title runId ts).tasks.length)
    (hl : k < (executorRun orc title runId ts).logs.length),
    ((executorRun orc title runId ts).tasks.get ⟨k, hk⟩).status = "pending" ∧
    ((executorRun orc title runId ts).tasks.get ⟨k, hk⟩).output = (ts.get ⟨k, h⟩).output ∧
    ((executorRun orc title runId ts).tasks.get ⟨k, hk⟩).id = (ts.get ⟨k, h⟩).id ∧
    (executorRun orc title runId ts).logs.get ⟨k, hl⟩
      = ⟨runId, some (ts.get ⟨k, h⟩).agentType, "error", msg⟩

/-- C6: when the k-th task's completion call raises, or its
output-persisting commit raises, the Executor rolls the transaction back
(the task's stored output is unchanged), resets that task to `pending`,
appends an `error` log carrying the failure message, and still processes
every task of the list (the step/task/log traces all have full
length). -/
theorem executorC6_taskFailureIsolation (orc : Nat → TaskOutcome) (title : String)
    (runId : Nat) (ts : List TaskRec) (k : Nat) (msg : String)
    (hk : k < ts.length)
    (hfail : orc k = TaskOutcome.llmFail msg ∨ ∃ txt, orc k = TaskOutcome.persistFail txt msg) :
    execFailureConcl orc title runId ts k msg := by
  have htasks : (executorRun orc title runId ts).tasks
      = idxMap (fun j u => taskResult (orc j) u) 0 ts := executorGo_tasks orc title runId ts 0 ""
  have hlogs : (executorRun orc title runId ts).logs
      = idxMap (fun j u => logResult runId (orc j) u) 0 ts := executorGo_logs orc title runId ts 0 ""
  refine ⟨by rw [htasks]; exact idxMap_length _ ts 0,
          by rw [hlogs]; exact idxMap_length _ ts 0,
          executorGo_steps_length orc title runId ts 0 "", ?_⟩
  intro h hk' hl'
  have hk2 : k < (idxMap (fun j u => taskResult (orc j) u) 0 ts).length := by
    rw [← htasks]; exact hk'
  have hl2 : k < (idxMap (fun j u => logResult runId (orc j) u) 0 ts).length := by
    rw [← hlogs]; exact hl'
  have ht : (executorRun orc title runId ts).tasks.get ⟨k, hk'⟩
      = taskResult (orc k) (ts.get ⟨k, h⟩) := by
    rw [List.get_of_eq htasks ⟨k, hk'⟩]
    have := idxMap_get (fun j u => taskResult (orc j) u) ts 0 k h hk2
    simpa using this
  have hlg : (executorRun orc title runId ts).logs.get ⟨k, hl'⟩
      = logResult runId (orc k) (ts.get ⟨k, h⟩) := by
    rw [List.get_of_eq hlogs ⟨k, hl'⟩]
    have := idxMap_get (fun j u => logResult runId (orc j) u) ts 0 k h hl2
    simpa using this
  rw [ht, hlg]
  rcases hfail with hf | ⟨txt, hf⟩ <;> simp [taskResult, logResult, hf]

/-- C10: `ExecutorAgent.run` returns normally for every oracle — every
per-task failure is absorbed inside the loop, so all tasks of the input
list are processed — and on return every task row is either `done` with
its output set or `pending`; none is left `running`. -/
theorem executorC10_noEscape_doneOrPending :
    ∀ (orc : Nat → TaskOutcome) (title : String) (runId : Nat) (ts : List TaskRec),
      (executorRun orc title runId ts).steps.length = ts.length ∧
      (executorRun orc title runId ts).tasks.length = ts.length ∧
      ∀ u ∈ (executorRun orc title runId ts).tasks,
        (u.status = "done" ∧ u.output.isSome = true) ∨ u.status = "pending" := by
  intro orc title runId ts
  refine ⟨executorGo_steps_length orc title runId ts 0 "", ?_, ?_⟩
  · rw [executorRun, executorGo_tasks]
    exact idxMap_length _ ts 0
  · rw [executorRun, executorGo_tasks]
    exact forall_mem_idxMap _ _
      (by intro j a; cases h : orc j <;> simp [taskResult]) ts 0

/-! Fixtures for the Executor witnesses: three pending tasks where the
middle one fails. -/

def wTasks : List TaskRec :=
  [⟨10, 9, "executor", "pending", "a", none, 1⟩,
   ⟨11, 9, "executor", "pending", "b", none, 2⟩,
   ⟨12, 9, "executor", "pending", "c", none, 3⟩]

def mixOrc : Nat → TaskOutcome := fun k =>
  if k == 1 then TaskOutcome.llmFail "boom2" else TaskOutcome.ok ("out" ++ toString k) 7

/-- Witness for C4 at a concrete mixed success/failure execution. -/
theorem executorC4_rollingContext_witness : execOrderConcl mixOrc "T" 9 wTasks :=
  executorC4_rollingContext mixOrc "T" 9 wTasks (by decide)

/-- Witness for C6 at the concrete failing middle task. -/
theorem executorC6_taskFailureIsolation_witness :
    execFailureConcl mixOrc "T" 9 wTasks 1 "boom2" :=
  executorC6_taskFailureIsolation mixOrc "T" 9 wTasks 1 "boom2" (by decide) (Or.inl rfl)

/-! ### Claim about the Reporter (C9) -/

theorem pyJoin_mem_split (sep : String) :
    ∀ (L : List String) (x : String), x ∈ L →
      ∃ pre post, pyJoin sep L = pre ++ x ++ post := by
  intro L
  induction L with
  | nil => intro x hx; simp at hx
  | cons y rest ih =>
    intro x hx
    rcases List.mem_cons.mp hx with h | h
    · subst h
      cases rest with
      | nil =>
        refine ⟨"", "", ?_⟩
        simp [pyJoin, String.append_empty, String.empty_append]
      | cons z zs =>
        refine ⟨"", sep ++ pyJoin sep (z :: zs), ?_⟩
        show x ++ sep ++ pyJoin sep (z :: zs) = "" ++ x ++ (sep ++ pyJoin sep (z :: zs))
        simp [String.append_assoc, String.empty_append]
    · have hne : rest ≠ [] := by
        intro hc
        rw [hc] at h
        simp at h
      obtain ⟨p, q, hpq⟩ := ih x h
      cases rest with
      | nil => exact absurd rfl hne
      | cons z zs =>
        refine ⟨y ++ sep ++ p, q, ?_⟩
        show y ++ sep ++ pyJoin sep (z :: zs) = y ++ sep ++ p ++ x ++ q
        rw [hpq]
        simp [String.append_assoc]

theorem placeholder_mem_block (t : RepTask) (hout : pyStrip (pyOrStr t.output "") = "") :
    "- Result: (no output recorded)" ∈ reporterBlock t := by
  by_cases hin : pyStrip (pyOrStr t.input "") = "" <;>
    simp [reporterBlock, hout, hin]

/-- C9: the Reporter is a total pure function of its inputs; on the
empty task list it returns exactly the header and the closing statement
with no step block in between, and any task whose output is empty (or
missing) gets the literal `(no output recorded)` placeholder in its step
block of the produced narrative. -/
theorem reporterC9_pureSummary :
    (∀ title : String, reporterRun title []
        = "Summary for project: " ++ title ++
          "\n\nThis run executed the following steps:\n\n" ++ reporterClosing) ∧
    (∀ (title : String) (ts : List RepTask) (t : RepTask), t ∈ ts →
        pyStrip (pyOrStr t.output "") = "" →
        ∃ pre post, reporterRun title ts = pre ++ "- Result: (no output recorded)" ++ post) := by
  constructor
  · intro title
    simp only [reporterRun, List.map_nil, List.flatten_nil, List.append_nil, List.nil_append,
      pyJoin, String.append_assoc, String.empty_append]
    congr 1
  · intro title ts t hmem hout
    have hblk : "- Result: (no output recorded)" ∈ reporterBlock t := placeholder_mem_block t hout
    have hfl : "- Result: (no output recorded)" ∈ List.flatten (ts.map reporterBlock) :=
      List.mem_flatten.mpr ⟨reporterBlock t, List.mem_map_of_mem _ hmem, hblk⟩
    have hlst : "- Result: (no output recorded)"
        ∈ (["Summary for project: " ++ title, "", "This run executed the following steps:"] ++
           List.flatten (ts.map reporterBlock) ++ ["", reporterClosing]) := by
      simp [hfl]
    simpa [reporterRun] using pyJoin_mem_split "\n" _ _ hlst

def wRepTask : RepTask := ⟨some 1, some "executor", some "inp", none⟩

/-- Witness for C9: the empty list and a concrete empty-output task. -/
theorem reporterC9_pureSummary_witness :
    (reporterRun "P" []
        = "Summary for project: " ++ "P" ++
          "\n\nThis run executed the following steps:\n\n" ++ reporterClosing) ∧
    (∃ pre post, reporterRun "P" [wRepTask] = pre ++ "- Result: (no output recorded)" ++ post) :=
  ⟨reporterC9_pureSummary.1 "P",
   reporterC9_pureSummary.2 "P" [wRepTask] wRepTask (List.mem_singleton_self _) (by decide)⟩

/-! ### Claims about the Planner (C3, C8) -/

def resp3x : Nat → Option JVal := fun k => if k < 3 then none else goodResp k

theorem planLoopGo_calls_le (resp : Nat → Option JVal) :
    ∀ (fuel : Nat) (cur : Option JVal) (calls : Nat),
      (planLoopGo resp cur calls fuel).2 ≤ calls + fuel := by
  intro fuel
  induction fuel with
  | zero =>
    intro cur calls
    simp [planLoopGo]
  | succ fuel ih =>
    intro cur calls
    show (if cur.isSome then (cur, calls)
          else planLoopGo resp (resp calls) (calls + 1) fuel).2 ≤ calls + (fuel + 1)
    by_cases h : cur.isSome
    · rw [if_pos h]
      omega
    · rw [if_neg h]
      have := ih (resp calls) (calls + 1)
      omega

/-- C3 counterexample: a completion service returning malformed JSON on
calls 1–3 and a valid plan on call 4.  The claim says `plan` fails with
a StructuralError, persists no Task, and leaves the Run `created`; in
fact the final `json.loads` happens after the correction loop, so the
4th response is still parsed: `plan` succeeds, persists the task and
advances the run to `planned`. -/
theorem plannerC3_validOnCall4_succeeds :
    (plannerPlan resp3x run0 sC3).result.isOk = true ∧
    (plannerPlan resp3x run0 sC3).calls = 4 ∧
    (plannerPlan resp3x run0 sC3).db.tasks.length = 1 ∧
    ((plannerPlan resp3x run0 sC3).db.runs.find? (fun r => r.id == 1)).map (fun r => r.status)
      = some "planned" := by
  decide

def goodPlanJ : JVal :=
  JVal.jdict [("tasks", JVal.jlist [JVal.jdict
    [("order_index", JVal.jint 1), ("input", JVal.jstr "step one")]])]

/-- C3 amended: `plan` fails with the StructuralError (persisting
nothing, leaving the Run unchanged, after exactly 4 completion calls)
precisely when all four calls — the initial attempt plus the 3 bounded
corrections — return malformed JSON; a valid response on call 3 stops
the correction loop (3 calls total) and a valid response on call 4 is
still parsed by the final `json.loads`, so `plan` proceeds in both
cases; no execution makes more than 4 completion calls. -/
theorem plannerC3_retryBound_amended :
    (∀ (resp : Nat → Option JVal) (run : RunRec) (s : DB),
        resp 0 = none → resp 1 = none → resp 2 = none → resp 3 = none →
        plannerPlan resp run s
          = ⟨.error (.http 400 "Planner failed to produce valid JSON"), s, 4⟩) ∧
    (∀ (resp : Nat → Option JVal) (run : RunRec) (s : DB),
        resp 0 = none → resp 1 = none → resp 2 = some goodPlanJ →
        (plannerPlan resp run s).result.isOk = true ∧ (plannerPlan resp run s).calls = 3) ∧
    (∀ (resp : Nat → Option JVal) (run : RunRec) (s : DB),
        resp 0 = none → resp 1 = none → resp 2 = none → resp 3 = some goodPlanJ →
        (plannerPlan resp run s).result.isOk = true ∧ (plannerPlan resp run s).calls = 4) ∧
    (∀ resp : Nat → Option JVal, (planLoop resp).2 ≤ 4) := by
  refine ⟨?_, ?_, ?_, ?_⟩
  · intro resp run s h0 h1 h2 h3
    have hl : planLoop resp = (none, 4) := by
      simp [planLoop, planLoopGo, h0, h1, h2, h3]
    have hc : plannerCore resp
        = (.error (.http 400 "Planner failed to produce valid JSON"), 4) := by
      unfold plannerCore
      rw [hl]
    simp [plannerPlan, hc]
  · intro resp run s h0 h1 h2
    have hl : planLoop resp = (some goodPlanJ, 3) := by
      simp [planLoop, planLoopGo, h0, h1, h2]
    have hc : plannerCore resp = (.ok [(1, "step one")], 3) := by
      unfold plannerCore
      rw [hl]
      decide
    constructor <;> simp [plannerPlan, hc, Except.isOk, Except.toBool]
  · intro resp run s h0 h1 h2 h3
    have hl : planLoop resp = (some goodPlanJ, 4) := by
      simp [planLoop, planLoopGo, h0, h1, h2, h3]
    have hc : plannerCore resp = (.ok [(1, "step one")], 4) := by
      unfold plannerCore
      rw [hl]
      decide
    constructor <;> simp [plannerPlan, hc, Except.isOk, Except.toBool]
  · intro resp
    have := planLoopGo_calls_le resp 3 (resp 0) 1
    simpa [planLoop] using this

/-- Witness for the amended C3 at the all-malformed oracle. -/
theorem plannerC3_retryBound_witness :
    plannerPlan badResp run0 sC3
      = ⟨.error (.http 400 "Planner failed to produce valid JSON"), sC3, 4⟩ :=
  plannerC3_retryBound_amended.1 badResp run0 sC3 rfl rfl rfl rfl

def badElemResp : Nat → Option JVal := fun _ =>
  some (JVal.jdict [("tasks", JVal.jlist [JVal.jint 42])])

def badIdxResp : Nat → Option JVal := fun _ =>
  some (JVal.jdict [("tasks", JVal.jlist [JVal.jdict
    [("order_index", JVal.jlist []), ("input", JVal.jstr "x")]])])

/-- C8 counterexample.  First response: `tasks = [42]` — the element
carries neither required key, and the claim says such elements are
silently skipped with no error, but `"order_index" not in 42` raises a
TypeError, so `plan` fails (nothing persisted, run not advanced).
Second response: `tasks = [{"order_index": [], "input": "x"}]` — the
element carries both keys and the claim says a Task is created with
`order_index` coerced to an integer, but `int([])` raises a TypeError
and `plan` fails. -/
theorem plannerC8_nonObjectElement :
    (plannerPlan badElemResp run0 sC3).result = .error .typeErr ∧
    (plannerPlan badElemResp run0 sC3).db = sC3 ∧
    (plannerPlan badIdxResp run0 sC3).result = .error .typeErr ∧
    (plannerPlan badIdxResp run0 sC3).db = sC3 := by
  decide

/-- The task data produced from one well-formed `tasks` element: `none`
when a required key is missing, otherwise the integer-coerced
`order_index` (when coercion succeeds) and the stringified `input`
truncated to 4000 characters. -/
def specElem : JVal → Option (Int × String)
  | .jdict d =>
    match jLookup "order_index" d, jLookup "input" d with
    | some ov, some iv =>
      match pyToInt ov with
      | .ok n => some (n, pyTake (pyToStr iv) 4000)
      | .error _ => none
    | _, _ => none
  | _ => none

theorem planElem_dict (d : List (String × JVal))
    (hco : ∀ ov iv, jLookup "order_index" d = some ov → jLookup "input" d = some iv →
      (pyToInt ov).isOk = true) :
    planElem (JVal.jdict d) = .ok (specElem (JVal.jdict d)) := by
  cases ho : jLookup "order_index" d with
  | none => simp [planElem, specElem, pyContains, ho]
  | some ov =>
    cases hi : jLookup "input" d with
    | none => simp [planElem, specElem, pyContains, ho, hi]
    | some iv =>
      have hok := hco ov iv ho hi
      cases hn : pyToInt ov with
      | error e =>
        rw [hn] at hok
        simp [Except.isOk, Except.toBool] at hok
      | ok n =>
        simp [planElem, specElem, pyContains, pyGetItem, ho, hi, hn]

theorem planElems_spec : ∀ (l : List JVal),
    (∀ v ∈ l, ∃ d, v = JVal.jdict d) →
    (∀ d, JVal.jdict d ∈ l → ∀ ov iv, jLookup "order_index" d = some ov →
      jLookup "input" d = some iv → (pyToInt ov).isOk = true) →
    planElems l = .ok (l.filterMap specElem) := by
  intro l
  induction l with
  | nil => intro _ _; rfl
  | cons v rest ih =>
    intro hdict hco
    obtain ⟨d, hd⟩ := hdict v (by simp)
    subst hd
    have he : planElem (JVal.jdict d) = .ok (specElem (JVal.jdict d)) :=
      planElem_dict d (fun ov iv ho hi => hco d (by simp) ov iv ho hi)
    have hr : planElems rest = .ok (rest.filterMap specElem) :=
      ih (fun v hv => hdict v (by simp [hv]))
         (fun d' hd' => hco d' (by simp [hd']))
    simp only [planElems, he, hr, List.filterMap_cons]
    cases hs : specElem (JVal.jdict d) <;> simp [hs]

theorem mkPlannedTasks_fields (rid : Nat) :
    ∀ (ps : List (Int × String)) (start : Nat),
      (mkPlannedTasks rid start ps).map (fun t => (t.runId, t.agentType, t.status, t.input, t.orderIndex))
        = ps.map (fun p => (rid, "executor", "pending", p.2, p.1)) := by
  intro ps
  induction ps with
  | nil => intro start; rfl
  | cons p ps ih => intro start; simp [mkPlannedTasks, ih]

/-- Conclusion of the amended C8 for a parsed response whose `tasks`
value is the list `l`: one completion call is made, `plan` succeeds,
and the persisted tasks are exactly one per element of `l` that carries
both keys — `run_id` of the planned run, `agent_type = "executor"`,
`status = "pending"`, `input` stringified and truncated to 4000
characters, `order_index` integer-coerced — appended to the store in
element order, with the run advanced to `planned`. -/
def plannerC8Concl (resp : Nat → Option JVal) (run : RunRec) (s : DB) (l : List JVal) : Prop :=
  (plannerPlan resp run s).calls = 1 ∧
  ∃ ts, (plannerPlan resp run s).result = .ok ts ∧
    ts.map (fun t => (t.runId, t.agentType, t.status, t.input, t.orderIndex))
      = (l.filterMap specElem).map (fun p => (run.id, "executor", "pending", p.2, p.1)) ∧
    (plannerPlan resp run s).db.tasks = s.tasks ++ ts ∧
    (plannerPlan resp run s).db.runs = setRunStatus run.id "planned" s.runs

/-- C8 amended: as the original claim, restricted to responses whose
non-empty `tasks` list contains only JSON objects and whose
`order_index` values (where both required keys are present) are
int-coercible — the restriction the counterexample forces, since
non-object elements and non-coercible `order_index` values raise instead
of being skipped. -/
theorem plannerC8_taskCreation_amended
    (resp : Nat → Option JVal) (run : RunRec) (s : DB)
    (kvs : List (String × JVal)) (l : List JVal)
    (h0 : resp 0 = some (JVal.jdict kvs))
    (ht : jLookup "tasks" kvs = some (JVal.jlist l))
    (hne : l ≠ [])
    (hdict : ∀ v ∈ l, ∃ d, v = JVal.jdict d)
    (hco : ∀ d, JVal.jdict d ∈ l → ∀ ov iv, jLookup "order_index" d = some ov →
      jLookup "input" d = some iv → (pyToInt ov).isOk = true) :
    plannerC8Concl resp run s l := by
  have hl : planLoop resp = (some (JVal.jdict kvs), 1) := by
    simp [planLoop, planLoopGo, h0]
  have hel : planElems l = .ok (l.filterMap specElem) := planElems_spec l hdict hco
  have hne' : l.isEmpty = false := by
    cases l with
    | nil => exact absurd rfl hne
    | cons a l => rfl
  have hc : plannerCore resp = (.ok (l.filterMap specElem), 1) := by
    unfold plannerCore
    rw [hl]
    simp [ht, hne', hel]
  refine ⟨by simp [plannerPlan, hc], mkPlannedTasks run.id s.nextId (l.filterMap specElem),
    by simp [plannerPlan, hc], mkPlannedTasks_fields run.id (l.filterMap specElem) s.nextId,
    by simp [plannerPlan, hc], by simp [plannerPlan, hc]⟩

def goodElemD : List (String × JVal) :=
  [("order_index", JVal.jint 1), ("input", JVal.jstr "step one")]

/-- Witness for the amended C8 at a concrete well-formed response. -/
theorem plannerC8_taskCreation_witness :
    plannerC8Concl goodResp run0 sC3 [JVal.jdict goodElemD] :=
  plannerC8_taskCreation_amended goodResp run0 sC3
    [("tasks", JVal.jlist [JVal.jdict goodElemD])] [JVal.jdict goodElemD]
    rfl rfl (List.cons_ne_nil _ _)
    (fun v hv => ⟨goodElemD, by simpa using hv⟩)
    (by
      intro d hd ov iv ho hi
      have hd' : JVal.jdict d = JVal.jdict goodElemD := by simpa using hd
      have hdd : d = goodElemD := by injection hd'
      subst hdd
      have h1 : jLookup "order_index" goodElemD = some (JVal.jint 1) := rfl
      rw [h1] at ho
      injection ho with h2
      rw [← h2]
      rfl)

/-! ### Claim C2 — lock release on every path -/

/-- C2 evaluated at the failing input.  `create_and_plan_run` sets
`Project.is_locked` and commits, and only then enters the `try` whose
`finally` clears the flag; the archive bulk-update/commit sits between
the two.  First half: when the archive step raises (a database error),
the error propagates with the project still locked — no cleanup runs.
Second half, for contrast: when the failure occurs inside the `try`
(the planner's StructuralError), the `finally` does clear the flag.  So
the one leaking path is the archive window, contradicting the claim
that no code path leaves the flag set. -/
theorem locksC2_archiveLeak_eval :
    ((createAndPlan 1 false goodResp s0c).result.isOk = false) ∧
    (((createAndPlan 1 false goodResp s0c).db.projects.find? (fun p => p.id == 1)).map
        (fun p => p.isLocked) = some true) ∧
    ((createAndPlan 1 true badResp s0c).result.isOk = false) ∧
    (((createAndPlan 1 true badResp s0c).db.projects.find? (fun p => p.id == 1)).map
        (fun p => p.isLocked) = some false) := by
  decide

/-! ### Claim C1 — at most one non-archived Run per Project -/

def countNA (pid : Nat) (runs : List RunRec) : Nat :=
  (runs.filter (fun r => r.projectId == pid && !r.isArchived)).length

theorem countNonArchived_eq (pid : Nat) (s : DB) :
    countNonArchived pid s = countNA pid s.runs := rfl

theorem countNA_archive_self (pid : Nat) :
    ∀ runs : List RunRec, countNA pid (archiveRuns pid runs) = 0 := by
  intro runs
  induction runs with
  | nil => rfl
  | cons r rest ih =>
    by_cases h : (r.projectId == pid && !r.isArchived) = true
    · simp only [archiveRuns, List.map_cons] at *
      rw [if_pos h]
      simpa [countNA] using ih
    · simp only [archiveRuns, List.map_cons] at *
      rw [if_neg h]
      have hpred : (r.projectId == pid && !r.isArchived) = false := by
        simpa using h
      simpa [countNA, hpred] using ih

theorem countNA_map_pres (pid : Nat) (g : RunRec → RunRec)
    (hg : ∀ r, ((g r).projectId == pid && !(g r).isArchived)
      = (r.projectId == pid && !r.isArchived)) :
    ∀ runs : List RunRec, countNA pid (runs.map g) = countNA pid runs := by
  intro runs
  induction runs with
  | nil => rfl
  | cons r rest ih =>
    simp only [List.map_cons, countNA, List.filter_cons] at *
    rw [hg r]
    by_cases hc : (r.projectId == pid && !r.isArchived) = true
    · rw [if_pos hc, if_pos hc]
      simpa using ih
    · rw [if_neg hc, if_neg hc]
      exact ih

theorem countNA_archive_other (pid q : Nat) (hne : q ≠ pid) :
    ∀ runs : List RunRec, countNA q (archiveRuns pid runs) = countNA q runs := by
  intro runs
  refine countNA_map_pres q _ ?_ runs
  intro r
  by_cases hc : (r.projectId == pid && !r.isArchived) = true
  · rw [if_pos hc]
    have hpid : r.projectId = pid := by
      simp only [Bool.and_eq_true, beq_iff_eq] at hc
      exact hc.1
    show (r.projectId == q && !true) = (r.projectId == q && !r.isArchived)
    have hq : (r.projectId == q) = false := by
      rw [hpid]
      simp
      omega
    simp [hq]
  · rw [if_neg hc]

theorem countNA_append (pid : Nat) (a b : List RunRec) :
    countNA pid (a ++ b) = countNA pid a + countNA pid b := by
  simp [countNA, List.filter_append]

theorem countNA_setRunStatus (pid rid : Nat) (st : String) :
    ∀ runs : List RunRec, countNA pid (setRunStatus rid st runs) = countNA pid runs := by
  intro runs
  refine countNA_map_pres pid _ ?_ runs
  intro r
  by_cases h : (r.id == rid) = true
  · rw [if_pos h]
  · rw [if_neg h]

theorem plannerPlan_runs_cases (resp : Nat → Option JVal) (run : RunRec) (s : DB) :
    (plannerPlan resp run s).db.runs = s.runs ∨
    (plannerPlan resp run s).db.runs = setRunStatus run.id "planned" s.runs := by
  unfold plannerPlan
  cases hc : (plannerCore resp).1 <;> simp [hc]

theorem countNA_plannerPlan (resp : Nat → Option JVal) (run : RunRec) (s : DB) (pid : Nat) :
    countNA pid (plannerPlan resp run s).db.runs = countNA pid s.runs := by
  rcases plannerPlan_runs_cases resp run s with h | h <;> rw [h]
  exact countNA_setRunStatus pid run.id "planned" s.runs

theorem countNA_createAndPlanMain (pid : Nat) (resp : Nat → Option JVal) (s1 : DB) (q : Nat) :
    countNA q (createAndPlanMain pid resp s1).db.runs
      = if q = pid then 1 else countNA q s1.runs := by
  have hdb : (createAndPlanMain pid resp s1).db.runs
      = (plannerPlan resp ⟨s1.nextId, pid, "created", none, false, false⟩
          { s1 with runs := archiveRuns pid s1.runs ++ [⟨s1.nextId, pid, "created", none, false, false⟩],
                    nextId := s1.nextId + 1 }).db.runs := rfl
  rw [hdb, countNA_plannerPlan]
  show countNA q (archiveRuns pid s1.runs ++ [⟨s1.nextId, pid, "created", none, false, false⟩]) = _
  rw [countNA_append]
  by_cases h : q = pid
  · subst h
    rw [countNA_archive_self]
    simp [countNA]
  · rw [countNA_archive_other pid q h]
    have : countNA q [(⟨s1.nextId, pid, "created", none, false, false⟩ : RunRec)] = 0 := by
      simp [countNA]
      omega
    rw [this]
    simp [h]

theorem countNA_createAndPlan_le (p' : Nat) (ok : Bool) (resp : Nat → Option JVal)
    (s : DB) (pid : Nat) (h : countNA pid s.runs ≤ 1) :
    countNA pid (createAndPlan p' ok resp s).db.runs ≤ 1 := by
  unfold createAndPlan
  cases hf : s.projects.find? (fun p => p.id == p') with
  | none => simpa using h
  | some p =>
    by_cases hlk : p.isLocked
    · simp only [hlk, if_true]
      simpa using h
    · simp only [hlk, if_false, Bool.false_eq_true]
      cases ok with
      | false => simpa using h
      | true =>
        simp only [Bool.not_true, if_false, Bool.false_eq_true]
        rw [countNA_createAndPlanMain]
        by_cases hq : pid = p' <;> simp [hq, h]

abbrev CpCall := Nat × Bool × (Nat → Option JVal)

def applyCreates (calls : List CpCall) (s : DB) : DB :=
  calls.foldl (fun s c => (createAndPlan c.1 c.2.1 c.2.2 s).db) s

theorem applyCreates_inv : ∀ (calls : List CpCall) (s : DB),
    (∀ pid, countNA pid s.runs ≤ 1) →
    ∀ pid, countNA pid (applyCreates calls s).runs ≤ 1 := by
  intro calls
  induction calls with
  | nil => intro s h pid; exact h pid
  | cons c calls ih =>
    intro s h pid
    have hstep : ∀ pid, countNA pid (createAndPlan c.1 c.2.1 c.2.2 s).db.runs ≤ 1 :=
      fun pid => countNA_createAndPlan_le c.1 c.2.1 c.2.2 s pid (h pid)
    exact ih (createAndPlan c.1 c.2.1 c.2.2 s).db hstep pid

/-- C1: after any sequence of `create_and_plan_run` invocations from an
initial store with no runs, at most one non-archived Run per Project
exists (the bound holds at every intermediate state, each prefix of the
sequence being itself such a sequence); and every invocation that
returns successfully leaves exactly one non-archived Run of its Project
— the new one, every prior one having been archived before the new Run
was persisted. -/
theorem runsC1_singleActiveRun :
    (∀ (ps : List ProjectRec) (calls : List CpCall) (pid : Nat),
        countNonArchived pid (applyCreates calls (dbInit ps)) ≤ 1) ∧
    (∀ (s : DB) (pid : Nat) (ok : Bool) (resp : Nat → Option JVal),
        (createAndPlan pid ok resp s).result.isOk = true →
        countNonArchived pid (createAndPlan pid ok resp s).db = 1) := by
  constructor
  · intro ps calls pid
    rw [countNonArchived_eq]
    exact applyCreates_inv calls (dbInit ps) (fun pid => by simp [dbInit, countNA]) pid
  · intro s pid ok resp hs
    rw [countNonArchived_eq]
    unfold createAndPlan at hs ⊢
    cases hf : s.projects.find? (fun p => p.id == pid) with
    | none =>
      rw [hf] at hs
      simp [Except.isOk, Except.toBool] at hs
    | some p =>
      rw [hf] at hs
      dsimp only at hs ⊢
      by_cases hlk : p.isLocked
      · rw [if_pos hlk] at hs
        simp [Except.isOk, Except.toBool] at hs
      · rw [if_neg hlk] at hs ⊢
        cases ok with
        | false => simp [Except.isOk, Except.toBool] at hs
        | true =>
          show countNA pid (createAndPlanMain pid resp
            { s with projects := setProjectLock pid true s.projects }).db.runs = 1
          rw [countNA_createAndPlanMain]
          simp

/-- Witness for the successful-creation half of C1. -/
theorem runsC1_singleActiveRun_witness :
    countNonArchived 1 (createAndPlan 1 true goodResp s0c).db = 1 :=
  runsC1_singleActiveRun.2 s0c 1 true goodResp (by decide)

/-! ### Claim C5 — resumption touches no completed task -/

theorem mem_insertTask : ∀ (l : List TaskRec) (t a : TaskRec),
    a ∈ insertTask t l ↔ a = t ∨ a ∈ l := by
  intro l
  induction l with
  | nil => intro t a; simp [insertTask]
  | cons u us ih =>
    intro t a
    by_cases h : t.orderIndex ≤ u.orderIndex
    · simp [insertTask, h]
    · simp only [insertTask, h, if_false]
      rw [List.mem_cons, List.mem_cons, ih t a]
      tauto

theorem mem_sortByOrderIndex : ∀ (l : List TaskRec) (a : TaskRec),
    a ∈ sortByOrderIndex l ↔ a ∈ l := by
  intro l
  induction l with
  | nil => intro a; simp [sortByOrderIndex]
  | cons t ts ih =>
    intro a
    rw [show sortByOrderIndex (t :: ts) = insertTask t (sortByOrderIndex ts) from rfl,
        mem_insertTask, ih a]
    simp

theorem nodup_id_inj : ∀ (l : List TaskRec),
    (l.map (fun u => u.id)).Nodup →
    ∀ u ∈ l, ∀ v ∈ l, u.id = v.id → u = v := by
  intro l
  induction l with
  | nil => intro _ u hu; simp at hu
  | cons a l ih =>
    intro h u hu v hv huv
    rw [List.map_cons, List.nodup_cons] at h
    obtain ⟨ha, hl⟩ := h
    rcases List.mem_cons.mp hu with h1 | h1 <;> rcases List.mem_cons.mp hv with h2 | h2
    · rw [h1, h2]
    · subst h1
      exact absurd (huv ▸ List.mem_map_of_mem (fun u => u.id) h2) ha
    · subst h2
      exact absurd (huv ▸ List.mem_map_of_mem (fun u => u.id) h1) ha
    · exact ih hl u h1 v h2 huv

theorem taskResult_id (o : TaskOutcome) (t : TaskRec) : (taskResult o t).id = t.id := by
  cases o <;> simp [taskResult]

theorem idxMap_taskIds (orc : Nat → TaskOutcome) :
    ∀ (l : List TaskRec) (k : Nat) (w : TaskRec),
      w ∈ idxMap (fun j u => taskResult (orc j) u) k l → ∃ x, x ∈ l ∧ w.id = x.id := by
  intro l
  induction l with
  | nil => intro k w hw; simp [idxMap] at hw
  | cons a l ih =>
    intro k w hw
    rcases (by simpa [idxMap] using hw :
        w = taskResult (orc k) a ∨ w ∈ idxMap (fun j u => taskResult (orc j) u) (k + 1) l) with h | h
    · exact ⟨a, List.mem_cons_self a l, by rw [h, taskResult_id]⟩
    · obtain ⟨x, hx, hid⟩ := ih (k + 1) w h
      exact ⟨x, List.mem_cons_of_mem a hx, hid⟩

theorem mem_execPending (rid : Nat) (s : DB) (x : TaskRec) (hx : x ∈ execPending rid s) :
    x ∈ s.tasks ∧ x.status = "pending" ∧ x.runId = rid := by
  have hx' : x ∈ s.tasks.filter (fun t => t.runId == rid && t.status == "pending") :=
    (mem_sortByOrderIndex _ x).mp hx
  have h := List.mem_filter.mp hx'
  have h2 := h.2
  simp only [Bool.and_eq_true, beq_iff_eq] at h2
  exact ⟨h.1, h2.2, h2.1⟩

/-- Conclusion of claim C5: the `done` task row survives execution
untouched (and is still the unique row with its id), and the executor's
processing trace covers only `pending` tasks of the run. -/
def executeFrameConcl (s : DB) (rid : Nat) (orc : Nat → TaskOutcome) (t : TaskRec) : Prop :=
  t ∈ (executeRun rid orc s).db.tasks ∧
  (∀ u ∈ (executeRun rid orc s).db.tasks, u.id = t.id → u = t) ∧
  (∀ st ∈ (executeRun rid orc s).steps, st.task.status = "pending" ∧ st.task.runId = rid)

/-- C5: re-invoking execute processes only the `pending` tasks of the
Run; every task already `done` keeps its status and output (its row is
untouched, under primary-key uniqueness of task ids). -/
theorem runsC5_resumeFrame (s : DB) (rid : Nat) (orc : Nat → TaskOutcome) (t : TaskRec)
    (hnd : (s.tasks.map (fun u => u.id)).Nodup)
    (hmem : t ∈ s.tasks) (hdone : t.status = "done") :
    executeFrameConcl s rid orc t := by
  have hinj := nodup_id_inj s.tasks hnd
  have htriv : t ∈ s.tasks ∧ (∀ u ∈ s.tasks, u.id = t.id → u = t) ∧
      (∀ st ∈ ([] : List ExecStep), st.task.status = "pending" ∧ st.task.runId = rid) :=
    ⟨hmem, fun u hu hid => hinj u hu t hmem hid, fun st hst => absurd hst (by simp)⟩
  unfold executeFrameConcl executeRun
  cases hf : s.runs.find? (fun r => r.id == rid) with
  | none => exact htriv
  | some run =>
    dsimp only
    by_cases hlk : run.isLocked
    · rw [if_pos hlk]
      exact htriv
    · rw [if_neg hlk]
      by_cases hemp : (execPending rid s).isEmpty
      · rw [if_pos hemp]
        exact htriv
      · rw [if_neg hemp]
        have hrtasks : (executorRun orc (execTitle s run) rid (execPending rid s)).tasks
            = idxMap (fun j u => taskResult (orc j) u) 0 (execPending rid s) :=
          executorGo_tasks orc (execTitle s run) rid (execPending rid s) 0 ""
        have hids : ∀ w ∈ (executorRun orc (execTitle s run) rid (execPending rid s)).tasks,
            ∃ x, x ∈ execPending rid s ∧ w.id = x.id := by
          rw [hrtasks]
          exact fun w hw => idxMap_taskIds orc (execPending rid s) 0 w hw
        have hnone : (executorRun orc (execTitle s run) rid (execPending rid s)).tasks.find?
            (fun u => u.id == t.id) = none := by
          rw [List.find?_eq_none]
          intro w hw hbeq
          have hwid : w.id = t.id := by simpa using hbeq
          obtain ⟨x, hxP, hxid⟩ := hids w hw
          obtain ⟨hxs, hxst, _⟩ := mem_execPending rid s x hxP
          have hxt : x = t := hinj x hxs t hmem (by rw [← hxid, hwid])
          rw [hxt, hdone] at hxst
          exact absurd hxst (by decide)
        refine ⟨?_, ?_, ?_⟩
        · have hmem' := List.mem_map_of_mem
            (fun x => (((executorRun orc (execTitle s run) rid (execPending rid s)).tasks.find?
              (fun u => u.id == x.id)).getD x)) hmem
          simpa [hnone] using hmem'
        · intro u hu hid
          rcases List.mem_map.mp hu with ⟨x, hxs, hxu⟩
          have hgid : u.id = x.id := by
            rw [← hxu]
            cases hfind : (executorRun orc (execTitle s run) rid (execPending rid s)).tasks.find?
                (fun u => u.id == x.id) with
            | none => simp
            | some w =>
              have hw := List.find?_some hfind
              simpa using hw
          have hxt : x = t := hinj x hxs t hmem (by rw [← hgid, hid])
          rw [← hxu, hxt]
          simp [hnone]
        · intro st hst
          have hmap : st.task ∈ (executorRun orc (execTitle s run) rid (execPending rid s)).steps.map
              (fun st => st.task) := List.mem_map_of_mem _ hst
          have hstt : (executorRun orc (execTitle s run) rid (execPending rid s)).steps.map
              (fun st => st.task) = execPending rid s :=
            executorGo_steps_tasks orc (execTitle s run) rid (execPending rid s) 0 ""
          rw [hstt] at hmap
          have := mem_execPending rid s st.task hmap
          exact ⟨this.2.1, this.2.2⟩

def sC5 : DB :=
  { dbInit [projA] with
      runs := [⟨1, 1, "completed", none, false, false⟩],
      tasks := [⟨2, 1, "executor", "done", "a", some "out-a", 1⟩,
                ⟨3, 1, "executor", "pending", "b", none, 2⟩],
      nextId := 4 }

def tDone : TaskRec := ⟨2, 1, "executor", "done", "a", some "out-a", 1⟩

/-- Witness for C5 at a concrete partially-completed run. -/
theorem runsC5_resumeFrame_witness : executeFrameConcl sC5 1 okOrc tDone :=
  runsC5_resumeFrame sC5 1 okOrc tDone (by decide) (by decide) rfl

/-! ### Claim C7 — forward-only Run status -/

theorem statusRank_le_four (st : String) : statusRank st ≤ 4 := by
  unfold statusRank
  split_ifs <;> omega

/-- Primary-key freshness of run ids against the autoincrement counter —
an invariant of every state reachable from a run-free store. -/
def RunIdsFresh (s : DB) : Prop := ∀ r ∈ s.runs, r.id < s.nextId

def isExecuteOn (op : Op) (i : Nat) : Prop := ∃ orc, op = Op.execute i orc

theorem find?_map_id (g : RunRec → RunRec) (hid : ∀ x, (g x).id = x.id) :
    ∀ (l : List RunRec) (i : Nat),
      (l.map g).find? (fun q => q.id == i) = (l.find? (fun q => q.id == i)).map g := by
  intro l
  induction l with
  | nil => intro i; rfl
  | cons a l ih =>
    intro i
    simp only [List.map_cons, List.find?_cons]
    rw [hid a]
    by_cases h : (a.id == i) = true
    · simp [h]
    · simp [h, ih i]

theorem find?_append_some (p : RunRec → Bool) (l1 l2 : List RunRec) (r : RunRec)
    (h : l1.find? p = some r) : (l1 ++ l2).find? p = some r := by
  rw [List.find?_append, h]
  rfl

theorem plannerPlan_nextId_ge (resp : Nat → Option JVal) (run : RunRec) (s : DB) :
    s.nextId ≤ (plannerPlan resp run s).db.nextId := by
  unfold plannerPlan
  cases hc : (plannerCore resp).1 <;> simp [hc]

theorem fresh_plannerPlan (resp : Nat → Option JVal) (run : RunRec) (s : DB)
    (h : RunIdsFresh s) : RunIdsFresh (plannerPlan resp run s).db := by
  intro r hr
  have hnext := plannerPlan_nextId_ge resp run s
  rcases plannerPlan_runs_cases resp run s with hruns | hruns
  · rw [hruns] at hr
    exact lt_of_lt_of_le (h r hr) hnext
  · rw [hruns] at hr
    rcases List.mem_map.mp hr with ⟨x, hx, hxr⟩
    have hid : r.id = x.id := by
      rw [← hxr]
      by_cases hb : (x.id == run.id) = true <;> simp [hb]
    rw [hid]
    exact lt_of_lt_of_le (h x hx) hnext

theorem fresh_createAndPlanMain (pid : Nat) (resp : Nat → Option JVal) (s1 : DB)
    (h : RunIdsFresh s1) : RunIdsFresh (createAndPlanMain pid resp s1).db := by
  have h3 : RunIdsFresh
      { s1 with runs := archiveRuns pid s1.runs ++ [⟨s1.nextId, pid, "created", none, false, false⟩],
                nextId := s1.nextId + 1 } := by
    intro r hr
    rcases List.mem_append.mp hr with hif | hnew
    · rcases List.mem_map.mp hif with ⟨x, hx, hxr⟩
      have hid : r.id = x.id := by
        rw [← hxr]
        by_cases hb : (x.projectId == pid && !x.isArchived) = true <;> simp [hb]
      have := h x hx
      show r.id < s1.nextId + 1
      omega
    · have hre : r = ⟨s1.nextId, pid, "created", none, false, false⟩ := by simpa using hnew
      rw [hre]
      show s1.nextId < s1.nextId + 1
      omega
  exact fun r hr => fresh_plannerPlan resp _ _ h3 r hr

theorem fresh_applyOp (op : Op) (s : DB) (h : RunIdsFresh s) : RunIdsFresh (applyOp op s) := by
  cases op with
  | createPlan pid ok resp =>
    show RunIdsFresh (createAndPlan pid ok resp s).db
    unfold createAndPlan
    cases hf : s.projects.find? (fun p => p.id == pid) with
    | none => exact h
    | some p =>
      dsimp only
      by_cases hlk : p.isLocked
      · rw [if_pos hlk]
        exact h
      · rw [if_neg hlk]
        cases ok with
        | false => exact h
        | true => exact fresh_createAndPlanMain pid resp _ (fun r hr => h r hr)
  | execute rid orc =>
    show RunIdsFresh (executeRun rid orc s).db
    unfold executeRun
    cases hf : s.runs.find? (fun r => r.id == rid) with
    | none => exact h
    | some run =>
      dsimp only
      by_cases hlk : run.isLocked
      · rw [if_pos hlk]
        exact h
      · rw [if_neg hlk]
        by_cases hemp : (execPending rid s).isEmpty
        · rw [if_pos hemp]
          exact h
        · rw [if_neg hemp]
          intro r hr
          rcases List.mem_map.mp hr with ⟨x, hx, hxr⟩
          have hid : r.id = x.id := by
            rw [← hxr]
            by_cases hb : (x.id == rid) = true <;> simp [hb]
          show r.id < s.nextId
          rw [hid]
          exact h x hx
  | summarize rid =>
    show RunIdsFresh (summarizeRun rid s).2
    unfold summarizeRun
    cases hf : s.runs.find? (fun r => r.id == rid) with
    | none => exact h
    | some run =>
      dsimp only
      by_cases hemp : (sortByOrderIndex (s.tasks.filter (fun t => t.runId == rid))).isEmpty
      · rw [if_pos hemp]
        exact h
      · rw [if_neg hemp]
        intro r hr
        rcases List.mem_map.mp hr with ⟨x, hx, hxr⟩
        have hid : r.id = x.id := by
          rw [← hxr]
          by_cases hb : (x.id == rid) = true <;> simp [hb]
        show r.id < s.nextId
        rw [hid]
        exact h x hx

theorem fresh_applyOps : ∀ (ops : List Op) (s : DB),
    RunIdsFresh s → RunIdsFresh (applyOps ops s) := by
  intro ops
  induction ops with
  | nil => intro s h; exact h
  | cons op ops ih => intro s h; exact ih (applyOp op s) (fresh_applyOp op s h)

theorem executeRun_runs (rid : Nat) (orc : Nat → TaskOutcome) (s : DB) :
    (executeRun rid orc s).db.runs = s.runs ∨
    (executeRun rid orc s).db.runs
      = s.runs.map (fun q => if q.id == rid then { q with status := "completed" } else q) := by
  unfold executeRun
  cases hf : s.runs.find? (fun r => r.id == rid) with
  | none => exact Or.inl rfl
  | some run =>
    dsimp only
    by_cases hlk : run.isLocked
    · rw [if_pos hlk]
      exact Or.inl rfl
    · rw [if_neg hlk]
      by_cases hemp : (execPending rid s).isEmpty
      · rw [if_pos hemp]
        exact Or.inl rfl
      · rw [if_neg hemp]
        exact Or.inr rfl

theorem summarizeRun_runs (rid : Nat) (s : DB) :
    (summarizeRun rid s).2.runs = s.runs ∨
    ∃ summ, (summarizeRun rid s).2.runs
      = s.runs.map (fun q =>
          if q.id == rid then { q with finalSummary := some summ, status := "summarized" } else q) := by
  unfold summarizeRun
  cases hf : s.runs.find? (fun r => r.id == rid) with
  | none => exact Or.inl rfl
  | some run =>
    dsimp only
    by_cases hemp : (sortByOrderIndex (s.tasks.filter (fun t => t.runId == rid))).isEmpty
    · rw [if_pos hemp]
      exact Or.inl rfl
    · rw [if_neg hemp]
      exact Or.inr ⟨_, rfl⟩

theorem createAndPlan_runs (pid : Nat) (ok : Bool) (resp : Nat → Option JVal) (s : DB) :
    (createAndPlan pid ok resp s).db.runs = s.runs ∨
    (createAndPlan pid ok resp s).db.runs
      = (createAndPlanMain pid resp { s with projects := setProjectLock pid true s.projects }).db.runs := by
  unfold createAndPlan
  cases hf : s.projects.find? (fun p => p.id == pid) with
  | none => exact Or.inl rfl
  | some p =>
    dsimp only
    by_cases hlk : p.isLocked
    · rw [if_pos hlk]
      exact Or.inl rfl
    · rw [if_neg hlk]
      cases ok with
      | false => exact Or.inl rfl
      | true => exact Or.inr rfl

theorem createPlanMain_find_status (pid : Nat) (resp : Nat → Option JVal) (s1 : DB)
    (i : Nat) (r : RunRec)
    (hr : s1.runs.find? (fun q => q.id == i) = some r)
    (hfresh : ∀ q ∈ s1.runs, q.id < s1.nextId) :
    ∃ r', (createAndPlanMain pid resp s1).db.runs.find? (fun q => q.id == i) = some r' ∧
      r'.status = r.status := by
  have hdb : (createAndPlanMain pid resp s1).db.runs
      = (plannerPlan resp ⟨s1.nextId, pid, "created", none, false, false⟩
          { s1 with runs := archiveRuns pid s1.runs ++ [⟨s1.nextId, pid, "created", none, false, false⟩],
                    nextId := s1.nextId + 1 }).db.runs := rfl
  have hidA : ∀ x : RunRec,
      ((fun x => if x.projectId == pid && !x.isArchived then { x with isArchived := true } else x) x).id
        = x.id := by
    intro x
    by_cases hb : (x.projectId == pid && !x.isArchived) = true <;> simp [hb]
  have hstA : ∀ x : RunRec,
      ((fun x => if x.projectId == pid && !x.isArchived then { x with isArchived := true } else x) x).status
        = x.status := by
    intro x
    by_cases hb : (x.projectId == pid && !x.isArchived) = true <;> simp [hb]
  have h1 : (archiveRuns pid s1.runs).find? (fun q => q.id == i)
      = some ((fun x => if x.projectId == pid && !x.isArchived then { x with isArchived := true } else x) r) := by
    show (s1.runs.map _).find? _ = _
    rw [find?_map_id _ hidA s1.runs i, hr]
    rfl
  have h2 : ((archiveRuns pid s1.runs) ++ [(⟨s1.nextId, pid, "created", none, false, false⟩ : RunRec)]).find?
      (fun q => q.id == i)
      = some ((fun x => if x.projectId == pid && !x.isArchived then { x with isArchived := true } else x) r) :=
    find?_append_some _ _ _ _ h1
  have hri : r.id = i := by simpa using List.find?_some hr
  have hrlt : r.id < s1.nextId := hfresh r (List.mem_of_find?_eq_some hr)
  rw [hdb]
  rcases plannerPlan_runs_cases resp ⟨s1.nextId, pid, "created", none, false, false⟩
      { s1 with runs := archiveRuns pid s1.runs ++ [⟨s1.nextId, pid, "created", none, false, false⟩],
                nextId := s1.nextId + 1 } with hruns | hruns
  · rw [hruns]
    exact ⟨_, h2, hstA r⟩
  · rw [hruns]
    show ∃ r', (setRunStatus s1.nextId "planned"
        (archiveRuns pid s1.runs ++ [(⟨s1.nextId, pid, "created", none, false, false⟩ : RunRec)])).find?
        (fun q => q.id == i) = some r' ∧ r'.status = r.status
    unfold setRunStatus
    have hidS : ∀ x : RunRec,
        ((fun x => if x.id == s1.nextId then { x with status := "planned" } else x) x).id
          = x.id := by
      intro x
      by_cases hb : (x.id == s1.nextId) = true <;> simp [hb]
    rw [find?_map_id _ hidS _ i, h2, Option.map_some']
    refine ⟨_, rfl, ?_⟩
    have hb : (((fun x => if x.projectId == pid && !x.isArchived then { x with isArchived := true } else x) r).id
        == s1.nextId) = false := by
      rw [hidA r, hri]
      simp only [beq_eq_false_iff_ne, ne_eq]
      omega
    show ((fun x => if x.id == s1.nextId then { x with status := "planned" } else x)
        ((fun x => if x.projectId == pid && !x.isArchived then { x with isArchived := true } else x) r)).status
        = r.status
    simp only [hb, Bool.false_eq_true, if_false]
    exact hstA r

/-- No operation other than an execute aimed at run `i` ever lowers run
`i`'s status rank (create-and-plan only toggles `archived` on existing
runs and touches the status of the fresh run only; summarize moves to
the maximal status). -/
theorem op_run_status (op : Op) (s : DB) (hfresh : RunIdsFresh s) (i : Nat) (r r' : RunRec)
    (hr : findRun s i = some r) (hr' : findRun (applyOp op s) i = some r')
    (hnot : ¬ isExecuteOn op i) :
    statusRank r.status ≤ statusRank r'.status := by
  have hr0 : s.runs.find? (fun q => q.id == i) = some r := hr
  have hri : r.id = i := by simpa using List.find?_some hr0
  cases op with
  | createPlan pid ok resp =>
    have hr1 : (createAndPlan pid ok resp s).db.runs.find? (fun q => q.id == i) = some r' := hr'
    rcases createAndPlan_runs pid ok resp s with hruns | hruns
    · rw [hruns, hr0] at hr1
      injection hr1 with h
      rw [h]
    · rw [hruns] at hr1
      obtain ⟨r'', hfind, hst⟩ := createPlanMain_find_status pid resp
        { s with projects := setProjectLock pid true s.projects } i r hr0 (fun q hq => hfresh q hq)
      rw [hfind] at hr1
      injection hr1 with h
      rw [← h, hst]
  | execute rid orc =>
    have hne : ¬ (rid = i) := fun hc => hnot ⟨orc, by rw [hc]⟩
    have hr1 : (executeRun rid orc s).db.runs.find? (fun q => q.id == i) = some r' := hr'
    rcases executeRun_runs rid orc s with hruns | hruns
    · rw [hruns, hr0] at hr1
      injection hr1 with h
      rw [h]
    · rw [hruns] at hr1
      have hidE : ∀ x : RunRec,
          ((fun q => if q.id == rid then { q with status := "completed" } else q) x).id = x.id := by
        intro x
        by_cases hb : (x.id == rid) = true <;> simp [hb]
      rw [find?_map_id _ hidE s.runs i, hr0, Option.map_some'] at hr1
      have hb : (r.id == rid) = false := by
        rw [hri]
        simp only [beq_eq_false_iff_ne, ne_eq]
        exact fun hc => hne hc.symm
      have hgr : (if (r.id == rid) = true then { r with status := "completed" } else r) = r := by
        simp only [hb, Bool.false_eq_true, if_false]
      rw [hgr] at hr1
      injection hr1 with h
      rw [h]
  | summarize rid =>
    have hr1 : (summarizeRun rid s).2.runs.find? (fun q => q.id == i) = some r' := hr'
    rcases summarizeRun_runs rid s with hruns | ⟨summ, hruns⟩
    · rw [hruns, hr0] at hr1
      injection hr1 with h
      rw [h]
    · rw [hruns] at hr1
      have hidS : ∀ x : RunRec,
          ((fun q => if q.id == rid then { q with finalSummary := some summ, status := "summarized" } else q) x).id
            = x.id := by
        intro x
        by_cases hb : (x.id == rid) = true <;> simp [hb]
      rw [find?_map_id _ hidS s.runs i, hr0, Option.map_some'] at hr1
      by_cases hb : (r.id == rid) = true
      · have hgr : (if (r.id == rid) = true then { r with finalSummary := some summ, status := "summarized" } else r)
            = { r with finalSummary := some summ, status := "summarized" } := by
          simp only [hb, if_true]
        rw [hgr] at hr1
        injection hr1 with h
        rw [← h]
        show statusRank r.status ≤ statusRank "summarized"
        have h4 : statusRank "summarized" = 4 := by decide
        rw [h4]
        exact statusRank_le_four r.status
      · have hb' : (r.id == rid) = false := by simpa using hb
        have hgr : (if (r.id == rid) = true then { r with finalSummary := some summ, status := "summarized" } else r)
            = r := by
          simp only [hb', Bool.false_eq_true, if_false]
        rw [hgr] at hr1
        injection hr1 with h
        rw [h]

/-- C7 amended: along any operation sequence from a run-free store, a
Run's status can only move backward through the order `created →
planned → running → completed → summarized` when `execute_run` is
re-invoked on that very Run (which resets a `completed`/`summarized`
Run with pending tasks back through `running` to `completed`); every
other operation only moves every Run's status forward, and per-task
failure rollback affects Task status only. -/
theorem runsC7_monotone_amended (ps : List ProjectRec) (ops : List Op) (op : Op) (i : Nat)
    (r r' : RunRec)
    (hr : findRun (applyOps ops (dbInit ps)) i = some r)
    (hr' : findRun (applyOp op (applyOps ops (dbInit ps))) i = some r')
    (hdec : statusRank r'.status < statusRank r.status) :
    isExecuteOn op i := by
  by_contra hnot
  have hfresh : RunIdsFresh (applyOps ops (dbInit ps)) :=
    fresh_applyOps ops (dbInit ps) (fun q hq => by simp [dbInit] at hq)
  have := op_run_status op _ hfresh i r r' hr hr' hnot
  omega

def opsC7 : List Op := [Op.createPlan 1 true goodResp, Op.execute 1 failOrc, Op.summarize 1]

set_option maxRecDepth 4096 in
/-- C7 counterexample: create-and-plan a one-task run; execute it with
the task's completion call failing (the task returns to `pending`, the
run still reaches `completed`); summarize (`summarized`); then re-invoke
execute on the pending task.  The re-execution moves the run's status
from `summarized` back to `completed` (through `running`), so the
status does move backward, against the claim. -/
theorem runsC7_statusRegression :
    ((findRun (applyOps opsC7 s0c) 1).map (fun r => r.status) = some "summarized") ∧
    ((findRun (applyOp (Op.execute 1 okOrc) (applyOps opsC7 s0c)) 1).map (fun r => r.status)
      = some "completed") ∧
    statusRank "completed" < statusRank "summarized" := by
  decide

set_option maxRecDepth 4096 in
/-- Witness for the amended C7 at its concrete backward step. -/
theorem runsC7_monotone_witness : isExecuteOn (Op.execute 1 okOrc) 1 :=
  runsC7_monotone_amended [projA] opsC7 (Op.execute 1 okOrc) 1
    ((findRun (applyOps opsC7 s0c) 1).getD ⟨0, 0, "", none, false, false⟩)
    ((findRun (applyOp (Op.execute 1 okOrc) (applyOps opsC7 s0c)) 1).getD ⟨0, 0, "", none, false, false⟩)
    (by decide) (by decide) (by decide)
